import Mathlib

/-!
Shallow embedding of the Living Universe Engine core (`simulation.js`).

State vectors are `List ℚ`; the JavaScript `Math.random()` stream is an
explicit parameter `r : ℕ → ℚ` consumed through a counter (each call to
the generator reads `r c` and bumps the counter), and the transcendental
functions `Math.sin`, `Math.cos`, `Math.tanh` are fields of an abstract
environment `MathEnv`, so every definition stays executable.  Reads of a
missing array slot or table entry (which yield `undefined` in the source)
are rendered with the default value `[]` / `0`; all claims are settled on
the in-range paths where the defaults are never reached.
-/

namespace LUE

/-- The transcendental functions of the JavaScript `Math` object used by
the engine, kept abstract so the embedding remains computable. -/
structure MathEnv where
  sin : ℚ → ℚ
  cos : ℚ → ℚ
  tanh : ℚ → ℚ

/-- `DEFAULT_DIM` from the source. -/
def DEFAULT_DIM : ℕ := 10

/-- `zeros(len)`: array of `len` zeros. -/
def zeros (len : ℕ) : List ℚ :=
  List.replicate len 0

/-- `randVec(len)`: a vector of `len` fresh random draws, consuming the
stream `r` starting at counter `c`; returns the vector and new counter. -/
def randVec (len : ℕ) (r : ℕ → ℚ) (c : ℕ) : List ℚ × ℕ :=
  ((List.range len).map (fun i => r (c + i)), c + len)

/-- Helper rendering JavaScript `a.map((x, i) => f(i, x))`: map with the
element index threaded through. -/
def vecIdxMap (f : ℕ → ℚ → ℚ) : ℕ → List ℚ → List ℚ
  | _, [] => []
  | i, x :: xs => f i x :: vecIdxMap f (i + 1) xs

/-- `sinVec(v) = v.map(Math.sin)`. -/
def sinVec (env : MathEnv) (v : List ℚ) : List ℚ :=
  v.map env.sin

/-- `cosVec(v) = v.map(Math.cos)`. -/
def cosVec (env : MathEnv) (v : List ℚ) : List ℚ :=
  v.map env.cos

/-- `addVec(a, b) = a.map((x, i) => x + b[i])`. -/
def addVec (a b : List ℚ) : List ℚ :=
  vecIdxMap (fun i x => x + b.getD i 0) 0 a

/-- `subVec(a, b) = a.map((x, i) => x - b[i])`. -/
def subVec (a b : List ℚ) : List ℚ :=
  vecIdxMap (fun i x => x - b.getD i 0) 0 a

/-- `scaleVec(v, s) = v.map(x => x * s)`. -/
def scaleVec (v : List ℚ) (s : ℚ) : List ℚ :=
  v.map (fun x => x * s)

/-- `blendVec(a, b, alpha) = a.map((x, i) => (1-alpha)*x + alpha*b[i])`. -/
def blendVec (a b : List ℚ) (alpha : ℚ) : List ℚ :=
  vecIdxMap (fun i x => (1 - alpha) * x + alpha * b.getD i 0) 0 a

/-- The damped velocity of oscillator pair `i` in `evolveOscillators`:
`vNext = (vi + dt*force) * (1 - gamma)` with
`force = -k*xi - coupling*((xi-left) + (xi-right))`,
`dt = 0.05`, `k = 1.0`, `coupling = 0.1`. -/
def oscVNext (prev : List ℚ) (gamma : ℚ) (n i : ℕ) : ℚ :=
  let dt : ℚ := 1 / 20
  let k : ℚ := 1
  let coupling : ℚ := 1 / 10
  let xi := prev.getD (2 * i) 0
  let vi := prev.getD (2 * i + 1) 0
  let left := if 0 < i then prev.getD (2 * (i - 1)) 0 else xi
  let right := if i < n - 1 then prev.getD (2 * (i + 1)) 0 else xi
  let force := -k * xi - coupling * ((xi - left) + (xi - right))
  (vi + dt * force) * (1 - gamma)

/-- The next position of oscillator pair `i`: `xNext = xi + dt * vNext`,
computed from the damped velocity (before any noise is added). -/
def oscXNext (prev : List ℚ) (gamma : ℚ) (n i : ℕ) : ℚ :=
  prev.getD (2 * i) 0 + (1 / 20) * oscVNext prev gamma n i

/-- One iteration of the oscillator loop body, acting on the pair
`(next, counter)`: writes `next[2i] = xNext` and `next[2i+1] = vNext`,
where the noise draw `(Math.random()*2 - 1) * noiseScale` is added to the
velocity only when `noiseScale > 0` (and then a draw is consumed). -/
def oscBody (prev : List ℚ) (gamma noiseScale : ℚ) (r : ℕ → ℚ) (n i : ℕ)
    (acc : List ℚ × ℕ) : List ℚ × ℕ :=
  let vNext := oscVNext prev gamma n i
  let xNext := oscXNext prev gamma n i
  let vc : ℚ × ℕ :=
    if 0 < noiseScale then (vNext + (r acc.2 * 2 - 1) * noiseScale, acc.2 + 1)
    else (vNext, acc.2)
  (((acc.1.set (2 * i) xNext).set (2 * i + 1) vc.1), vc.2)

/-- The oscillator loop `for (i = 0; i < n; i++)`: `oscGo … k` performs the
iterations `i = 0 … k-1` in order (iteration `k-1` applied last). -/
def oscGo (prev : List ℚ) (gamma noiseScale : ℚ) (r : ℕ → ℚ) (n : ℕ) :
    ℕ → List ℚ × ℕ → List ℚ × ℕ
  | 0, acc => acc
  | k + 1, acc => oscBody prev gamma noiseScale r n k (oscGo prev gamma noiseScale r n k acc)

/-- `evolveOscillators(prev, systemType)`: damped coupled oscillator chain;
`gamma = 0.05` for `"open"`, `0.01` for `"closed"`, else `0`;
`noiseScale = 0.02` for `"open"`, else `0`.  `next` starts as a copy of
`prev`; if the dimension is odd the trailing component is carried forward. -/
def evolveOscillators (prev : List ℚ) (systemType : String) (r : ℕ → ℚ) (c : ℕ) :
    List ℚ × ℕ :=
  let gamma : ℚ := if systemType = "open" then 1 / 20 else if systemType = "closed" then 1 / 100 else 0
  let noiseScale : ℚ := if systemType = "open" then 1 / 50 else 0
  let dim := prev.length
  let n := dim / 2
  let res := oscGo prev gamma noiseScale r n n (prev, c)
  let next := if dim % 2 = 1 then res.1.set (dim - 1) (prev.getD (dim - 1) 0) else res.1
  (next, res.2)

/-- `evolveIsing(prev, systemType)`: mean-field spins, `m = mean(prev)`
(divisor `dim || 1`), each component becomes `tanh(beta*(J*m + h))` with
`J = 1`, `h = 0`, `beta = 1`, plus uniform noise in `[-0.15, 0.15]` on the
local field when `systemType == "open"` (one draw per component, in order). -/
def evolveIsing (env : MathEnv) (prev : List ℚ) (systemType : String) (r : ℕ → ℚ) (c : ℕ) :
    List ℚ × ℕ :=
  let dim := prev.length
  let m : ℚ := prev.sum / (if dim = 0 then 1 else (dim : ℚ))
  let J : ℚ := 1
  let h : ℚ := 0
  let beta : ℚ := 1
  let noiseScale : ℚ := if systemType = "open" then 3 / 20 else 0
  let next := (List.range dim).map (fun i =>
    let localField := J * m + h + (if 0 < noiseScale then (r (c + i) * 2 - 1) * noiseScale else 0)
    env.tanh (beta * localField))
  (next, c + (if 0 < noiseScale then dim else 0))

/-- The `LivingUniverse` data model: per-time `levels` tables are
association lists from level index to state vector, and the outer `levels`
object maps a time index to its table. -/
structure LivingUniverse where
  dim : ℕ
  modelType : String
  systemType : String
  history : List (List ℚ)
  levels : List (ℕ × List (ℕ × List ℚ))
deriving DecidableEq

/-- Insert-or-replace for an association list, used for `this.levels[t] = …`. -/
def upsert {α : Type} (l : List (ℕ × α)) (k : ℕ) (v : α) : List (ℕ × α) :=
  match l with
  | [] => [(k, v)]
  | (k0, v0) :: rest => if k0 = k then (k, v) :: rest else (k0, v0) :: upsert rest k v

/-- The `LivingUniverse` constructor: `dim || DEFAULT_DIM` (so a zero
dimension silently becomes `DEFAULT_DIM`), falsy model/system tags default
to `"nonlinear"` / `"isolated"`, a missing seed is drawn from the random
stream, `history = [seed]`, `levels = {}`. -/
def construct (dim : ℕ) (modelType systemType : String) (seed : Option (List ℚ))
    (r : ℕ → ℚ) (c : ℕ) : LivingUniverse × ℕ :=
  let d := if dim = 0 then DEFAULT_DIM else dim
  let mt := if modelType = "" then "nonlinear" else modelType
  let st := if systemType = "" then "isolated" else systemType
  let sc : List ℚ × ℕ :=
    match seed with
    | some s => (s, c)
    | none => randVec d r c
  (⟨d, mt, st, [sc.1], []⟩, sc.2)

/-- `evolve(prev, memory, level)`: dispatch on the model type; the default
branch is the nonlinear retrocausal map
`blend(sin(prev), cos(memory), 1/(1+level))`. -/
def evolve (env : MathEnv) (modelType systemType : String) (r : ℕ → ℚ) (c : ℕ)
    (prev mem : List ℚ) (level : ℕ) : List ℚ × ℕ :=
  if modelType = "oscillators" then evolveOscillators prev systemType r c
  else if modelType = "ising" then evolveIsing env prev systemType r c
  else (blendVec (sinVec env prev) (cosVec env mem) (1 / (1 + (level : ℚ))), c)

/-- The level loop of `step`, `for (level = 1; level < maxLevel; level++)`:
`levelsGo … k acc` performs the iterations for `level = 1 … k` in order on
the accumulating table for time `t` (`acc`), reading the memory layer from
`lprev`, the table recorded at time `t-1`. -/
def levelsGo (env : MathEnv) (mt st : String) (r : ℕ → ℚ) (lprev : List (ℕ × List ℚ))
    (t : ℕ) : ℕ → List (ℕ × List ℚ) × ℕ → List (ℕ × List ℚ) × ℕ
  | 0, acc => acc
  | k + 1, acc =>
    let acc1 := levelsGo env mt st r lprev t k acc
    let level := k + 1
    let prev_layer := (acc1.1.lookup (level - 1)).getD []
    let mem_layer := if 1 < t then (lprev.lookup (level - 1)).getD [] else prev_layer
    let sv := evolve env mt st r acc1.2 prev_layer mem_layer level
    (acc1.1 ++ [(level, sv.1)], sv.2)

/-- `step(t, maxLevel)`: no-op at `t = 0`; otherwise computes the base
state from `(history[t-1], history[t-2] or history[t-1] if t == 1)` at
level 0, appends it to `history`, records it at `levels[t][0]`, then runs
the level loop for `level = 1 … maxLevel-1`. -/
def step (env : MathEnv) (r : ℕ → ℚ) (t maxLevel : ℕ) (u : LivingUniverse) (c : ℕ) :
    LivingUniverse × ℕ :=
  if t = 0 then (u, c)
  else
    let prev := u.history.getD (t - 1) []
    let mem := if 1 < t then u.history.getD (t - 2) [] else prev
    let bn := evolve env u.modelType u.systemType r c prev mem 0
    let lprev := (u.levels.lookup (t - 1)).getD []
    let lt := levelsGo env u.modelType u.systemType r lprev t (maxLevel - 1) ([(0, bn.1)], bn.2)
    ({ u with history := u.history ++ [bn.1], levels := upsert u.levels t lt.1 }, lt.2)

/-- The run loop `for (t = 1; t < steps; t++)`: `runGo … k` performs the
steps `t = 1 … k` in order. -/
def runGo (env : MathEnv) (r : ℕ → ℚ) (maxLevel : ℕ) :
    ℕ → LivingUniverse × ℕ → LivingUniverse × ℕ
  | 0, s => s
  | k + 1, s =>
    let s1 := runGo env r maxLevel k s
    step env r (k + 1) maxLevel s1.1 s1.2

/-- `run(steps, maxLevel)`: steps `t = 1 … steps-1`. -/
def run (env : MathEnv) (r : ℕ → ℚ) (steps maxLevel : ℕ) (s : LivingUniverse × ℕ) :
    LivingUniverse × ℕ :=
  runGo env r maxLevel (steps - 1) s

/-- `get_state(t, level)`: `history[t]` at level 0, else `levels[t][level]`. -/
def get_state (u : LivingUniverse) (t : ℕ) (level : ℕ) : List ℚ :=
  if level = 0 then u.history.getD t []
  else (((u.levels.lookup t).getD []).lookup level).getD []

/-- The inner accumulation of `infinite_state`:
`for (j = 0; j < dim; j++) acc[j] += s[j] * w` over an accumulator of
length `dim`. -/
def addScaled (acc s : List ℚ) (w : ℚ) : List ℚ :=
  vecIdxMap (fun j a => a + s.getD j 0 * w) 0 acc

/-- `infinite_state(t)`: fold over the keys of `levels[t]`, sorted
ascending, adding `levels[t][i] * 1/(i+1)` into an accumulator of zeros. -/
def infinite_state (u : LivingUniverse) (t : ℕ) : List ℚ :=
  let levelMap := (u.levels.lookup t).getD []
  let keys := (levelMap.map Prod.fst).insertionSort (fun a b => a ≤ b)
  keys.foldl (fun acc i => addScaled acc ((levelMap.lookup i).getD []) (1 / ((i : ℚ) + 1)))
    (zeros u.dim)

/-- `retro_influence(universe, t_future, t_past, strength)`: silent no-op
when either index is out of range; otherwise rewrites
`history[t_past] ← history[t_past] + (get_state(t_future) - history[t_past])·strength`
in place, touching nothing else. -/
def retro_influence (u : LivingUniverse) (t_future t_past : ℕ) (strength : ℚ) :
    LivingUniverse :=
  if u.history.length ≤ t_future ∨ u.history.length ≤ t_past then u
  else
    let future_state := get_state u t_future 0
    let past_state := u.history.getD t_past []
    let delta := scaleVec (subVec future_state past_state) strength
    { u with history := u.history.set t_past (addVec past_state delta) }

/-- Modelled from the spec: the spec's version of `infinite_state`, whose
"infinite" sum ranges only over derived levels `ℓ ≥ 1` of `levels[t]`
(explicitly excluding any level-0 contribution), each weighted `1/(ℓ+1)`.
Used only to compare the code's `infinite_state` against the spec's words. -/
def spec_infinite_state_ge1 (u : LivingUniverse) (t : ℕ) : List ℚ :=
  let levelMap := (u.levels.lookup t).getD []
  let keys := ((levelMap.map Prod.fst).filter (fun k => 1 ≤ k)).insertionSort (fun a b => a ≤ b)
  keys.foldl (fun acc i => addScaled acc ((levelMap.lookup i).getD []) (1 / ((i : ℚ) + 1)))
    (zeros u.dim)

/-- The spec's per-time-step sum over all recorded level indices
`0 … maxLevel-1` (including level 0) of `levels[t][ℓ] · 1/(ℓ+1)`. -/
def sumLevelsRange (u : LivingUniverse) (t maxLevel : ℕ) : List ℚ :=
  (List.range maxLevel).foldl
    (fun acc l => addScaled acc ((((u.levels.lookup t).getD []).lookup l).getD []) (1 / ((l : ℚ) + 1)))
    (zeros u.dim)

/-- The dimension invariant: every vector stored in `history` and in the
`levels` tables has length exactly `dim`. -/
def dimOK (u : LivingUniverse) : Prop :=
  (∀ v ∈ u.history, v.length = u.dim) ∧
    ∀ p ∈ u.levels, ∀ q ∈ p.2, q.2.length = u.dim

/-- A fixed trivial math environment, used for concrete evaluations of the
model paths (oscillators) that never consult `Math.sin`/`cos`/`tanh`. -/
def trivEnv : MathEnv :=
  ⟨fun x => x, fun x => x, fun x => x⟩

/-- The zero random stream. -/
def rZero : ℕ → ℚ := fun _ => 0

/-- A concrete deterministic universe: oscillators, isolated, `dim = 2`,
seed `[1, 0]`, run with `steps = 2`, `maxLevel = 2`. -/
def Uosc : LivingUniverse :=
  (run trivEnv rZero 2 2 (construct 2 "oscillators" "isolated" (some [1, 0]) rZero 0)).1

/-- A concrete universe whose future and past states coincide: oscillators,
isolated, seed `[0, 0]`, run with `steps = 2`, `maxLevel = 1`, so that
`history = [[0,0], [0,0]]`. -/
def U5 : LivingUniverse :=
  (run trivEnv rZero 2 1 (construct 2 "oscillators" "isolated" (some [0, 0]) rZero 0)).1

/-- A small concrete universe with two distinct history entries, used to
instantiate the retro-influence theorems. -/
def Upair : LivingUniverse :=
  ⟨1, "nonlinear", "isolated", [[0], [2]], []⟩

/-- An environment with `sin 0 = 0` and `cos 0 = 1`, used to instantiate
the nonlinear concrete scenario. -/
def flatEnv : MathEnv :=
  ⟨fun _ => 0, fun _ => 1, fun x => x⟩

theorem length_vecIdxMap (f : ℕ → ℚ → ℚ) : ∀ (i : ℕ) (l : List ℚ),
    (vecIdxMap f i l).length = l.length
  | _, [] => rfl
  | i, _ :: xs => by simp [vecIdxMap, length_vecIdxMap f (i + 1) xs]

theorem getD_vecIdxMap (f : ℕ → ℚ → ℚ) : ∀ (l : List ℚ) (i j : ℕ), j < l.length →
    (vecIdxMap f i l).getD j 0 = f (i + j) (l.getD j 0) := by
  intro l
  induction l with
  | nil => intro i j h; simp at h
  | cons x xs ih =>
    intro i j h
    cases j with
    | zero => simp [vecIdxMap]
    | succ j =>
      simp only [vecIdxMap, List.getD_cons_succ]
      rw [ih (i + 1) j (by simpa using h)]
      ring_nf

theorem getD_set {α : Type} (a d : α) : ∀ (l : List α) (m j : ℕ),
    (l.set m a).getD j d = if j = m ∧ m < l.length then a else l.getD j d := by
  intro l
  induction l with
  | nil => intro m j; simp
  | cons x xs ih =>
    intro m j
    cases m with
    | zero =>
      cases j with
      | zero => simp
      | succ j => simp
    | succ m =>
      cases j with
      | zero => simp
      | succ j =>
        simp only [List.set_cons_succ, List.getD_cons_succ, ih m j, List.length_cons]
        by_cases h1 : j = m ∧ m < xs.length
        · rw [if_pos h1, if_pos (by omega)]
        · rw [if_neg h1, if_neg (by omega)]

theorem getD_default {α : Type} (d : α) : ∀ (l : List α) (j : ℕ), l.length ≤ j →
    l.getD j d = d := by
  intro l
  induction l with
  | nil => intro j _; simp
  | cons x xs ih =>
    intro j h
    cases j with
    | zero => simp at h
    | succ j => simpa using ih j (by simpa using h)

theorem getD_append_left {α : Type} (d : α) : ∀ (l1 l2 : List α) (j : ℕ), j < l1.length →
    (l1 ++ l2).getD j d = l1.getD j d := by
  intro l1
  induction l1 with
  | nil => intro l2 j h; simp at h
  | cons x xs ih =>
    intro l2 j h
    cases j with
    | zero => simp
    | succ j => simpa using ih l2 j (by simpa using h)

theorem getD_append_last {α : Type} (d a : α) : ∀ (l : List α),
    (l ++ [a]).getD l.length d = a := by
  intro l
  induction l with
  | nil => simp
  | cons x xs ih => simp [ih]

theorem getD_mem {α : Type} (d : α) : ∀ (l : List α) (j : ℕ), j < l.length →
    l.getD j d ∈ l := by
  intro l
  induction l with
  | nil => intro j h; simp at h
  | cons x xs ih =>
    intro j h
    cases j with
    | zero => simp
    | succ j =>
      simp only [List.getD_cons_succ, List.mem_cons]
      exact Or.inr (ih j (by simpa using h))

theorem ext_getD : ∀ {a b : List ℚ}, a.length = b.length →
    (∀ j, a.getD j 0 = b.getD j 0) → a = b := by
  intro a
  induction a with
  | nil => intro b hl _; cases b with
    | nil => rfl
    | cons y ys => simp at hl
  | cons x xs ih =>
    intro b hl h
    cases b with
    | nil => simp at hl
    | cons y ys =>
      have h0 := h 0
      simp only [List.getD_cons_zero] at h0
      have hrest : xs = ys := ih (by simpa using hl) (fun j => by simpa using h (j + 1))
      rw [h0, hrest]

theorem length_addVec (a b : List ℚ) : (addVec a b).length = a.length :=
  length_vecIdxMap _ 0 a

theorem length_subVec (a b : List ℚ) : (subVec a b).length = a.length :=
  length_vecIdxMap _ 0 a

theorem length_blendVec (a b : List ℚ) (alpha : ℚ) : (blendVec a b alpha).length = a.length :=
  length_vecIdxMap _ 0 a

theorem length_scaleVec (v : List ℚ) (s : ℚ) : (scaleVec v s).length = v.length :=
  List.length_map v _

theorem length_addScaled (acc s : List ℚ) (w : ℚ) : (addScaled acc s w).length = acc.length :=
  length_vecIdxMap _ 0 acc

theorem getD_addVec (a b : List ℚ) (j : ℕ) (h : j < a.length) :
    (addVec a b).getD j 0 = a.getD j 0 + b.getD j 0 := by
  unfold addVec
  rw [getD_vecIdxMap _ a 0 j h]
  simp

theorem getD_subVec (a b : List ℚ) (j : ℕ) (h : j < a.length) :
    (subVec a b).getD j 0 = a.getD j 0 - b.getD j 0 := by
  unfold subVec
  rw [getD_vecIdxMap _ a 0 j h]
  simp

theorem getD_scaleVec (s : ℚ) : ∀ (v : List ℚ) (j : ℕ),
    (scaleVec v s).getD j 0 = v.getD j 0 * s := by
  intro v
  induction v with
  | nil => intro j; simp [scaleVec]
  | cons x xs ih =>
    intro j
    cases j with
    | zero => simp [scaleVec]
    | succ j => simpa [scaleVec] using ih j

theorem length_oscGo (prev : List ℚ) (gamma ns : ℚ) (r : ℕ → ℚ) (n : ℕ) :
    ∀ (k : ℕ) (acc : List ℚ × ℕ), (oscGo prev gamma ns r n k acc).1.length = acc.1.length := by
  intro k
  induction k with
  | zero => intro acc; rfl
  | succ k ih =>
    intro acc
    simp only [oscGo, oscBody]
    simp [ih acc]

theorem oscGo_noiseless (prev : List ℚ) (gamma ns : ℚ) (hns : ¬ 0 < ns) (r1 r2 : ℕ → ℚ)
    (n : ℕ) : ∀ (k : ℕ) (acc : List ℚ × ℕ),
    oscGo prev gamma ns r1 n k acc = oscGo prev gamma ns r2 n k acc := by
  intro k
  induction k with
  | zero => intro acc; rfl
  | succ k ih =>
    intro acc
    simp only [oscGo, oscBody, ih acc, if_neg hns]

theorem oscGo_spec (prev : List ℚ) (gamma ns : ℚ) (hns : 0 < ns) (r : ℕ → ℚ) (n c : ℕ)
    (h2n : 2 * n ≤ prev.length) : ∀ (k : ℕ), k ≤ n →
    (oscGo prev gamma ns r n k (prev, c)).2 = c + k ∧
    ∀ j, (oscGo prev gamma ns r n k (prev, c)).1.getD j 0 =
      if j < 2 * k then
        (if j % 2 = 0 then oscXNext prev gamma n (j / 2)
         else oscVNext prev gamma n (j / 2) + (r (c + j / 2) * 2 - 1) * ns)
      else prev.getD j 0 := by
  intro k
  induction k with
  | zero =>
    intro _
    constructor
    · rfl
    · intro j; simp [oscGo]
  | succ k ih =>
    intro hk
    obtain ⟨ihc, ihv⟩ := ih (by omega)
    have hlen : (oscGo prev gamma ns r n k (prev, c)).1.length = prev.length :=
      length_oscGo prev gamma ns r n k (prev, c)
    constructor
    · simp only [oscGo, oscBody, if_pos hns]
      simp [ihc]
      omega
    · intro j
      simp only [oscGo, oscBody, if_pos hns]
      rw [getD_set, getD_set]
      simp only [List.length_set, hlen]
      by_cases hj1 : j = 2 * k + 1
      · have hklen : 2 * k + 1 < prev.length := by omega
        rw [if_pos ⟨hj1, hklen⟩]
        have hmod : j % 2 = 1 := by omega
        have hdiv : j / 2 = k := by omega
        rw [if_pos (by omega : j < 2 * (k + 1)), if_neg (by omega : ¬ j % 2 = 0), hdiv, ihc]
      · rw [if_neg (by tauto)]
        by_cases hj2 : j = 2 * k
        · have hklen : 2 * k < prev.length := by omega
          rw [if_pos ⟨hj2, hklen⟩]
          have hdiv : j / 2 = k := by omega
          rw [if_pos (by omega : j < 2 * (k + 1)), if_pos (by omega : j % 2 = 0), hdiv]
        · rw [if_neg (by tauto), ihv j]
          by_cases hj3 : j < 2 * k
          · rw [if_pos hj3, if_pos (by omega : j < 2 * (k + 1))]
          · rw [if_neg hj3, if_neg (by omega : ¬ j < 2 * (k + 1))]

theorem length_evolveOscillators (prev : List ℚ) (st : String) (r : ℕ → ℚ) (c : ℕ) :
    (evolveOscillators prev st r c).1.length = prev.length := by
  unfold evolveOscillators
  simp only []
  split
  · simp [List.length_set, length_oscGo]
  · simp [length_oscGo]

theorem evolveOscillators_noiseless (prev : List ℚ) (st : String) (hst : st ≠ "open")
    (r1 r2 : ℕ → ℚ) (c : ℕ) :
    evolveOscillators prev st r1 c = evolveOscillators prev st r2 c := by
  unfold evolveOscillators
  rw [if_neg hst, if_neg hst]
  simp only []
  rw [oscGo_noiseless prev _ 0 (by norm_num) r1 r2 (prev.length / 2) (prev.length / 2) (prev, c)]

theorem evolveOscillators_open_eq (prev : List ℚ) (r : ℕ → ℚ) (c : ℕ) :
    evolveOscillators prev "open" r c =
      (if prev.length % 2 = 1 then
        (oscGo prev (1 / 20) (1 / 50) r (prev.length / 2) (prev.length / 2) (prev, c)).1.set
          (prev.length - 1) (prev.getD (prev.length - 1) 0)
       else (oscGo prev (1 / 20) (1 / 50) r (prev.length / 2) (prev.length / 2) (prev, c)).1,
       (oscGo prev (1 / 20) (1 / 50) r (prev.length / 2) (prev.length / 2) (prev, c)).2) := by
  rfl

theorem evolveOscillators_open_getD (prev : List ℚ) (r : ℕ → ℚ) (c i : ℕ)
    (hi : i < prev.length / 2) :
    (evolveOscillators prev "open" r c).1.getD (2 * i) 0 =
      oscXNext prev (1 / 20) (prev.length / 2) i ∧
    (evolveOscillators prev "open" r c).1.getD (2 * i + 1) 0 =
      oscVNext prev (1 / 20) (prev.length / 2) i + (r (c + i) * 2 - 1) * (1 / 50) := by
  have h2n : 2 * (prev.length / 2) ≤ prev.length := by omega
  obtain ⟨-, hval⟩ :=
    oscGo_spec prev (1 / 20) (1 / 50) (by norm_num) r (prev.length / 2) c h2n
      (prev.length / 2) le_rfl
  have hx := hval (2 * i)
  have hv := hval (2 * i + 1)
  rw [if_pos (by omega : 2 * i < 2 * (prev.length / 2)),
    if_pos (by omega : 2 * i % 2 = 0)] at hx
  rw [if_pos (by omega : 2 * i + 1 < 2 * (prev.length / 2)),
    if_neg (by omega : ¬ (2 * i + 1) % 2 = 0)] at hv
  have hdx : 2 * i / 2 = i := by omega
  have hdv : (2 * i + 1) / 2 = i := by omega
  rw [hdx] at hx
  rw [hdv] at hv
  rw [evolveOscillators_open_eq]
  by_cases hodd : prev.length % 2 = 1
  · rw [if_pos hodd]
    simp only []
    rw [getD_set, if_neg (by omega), getD_set, if_neg (by omega)]
    exact ⟨hx, hv⟩
  · rw [if_neg hodd]
    exact ⟨hx, hv⟩

theorem length_evolveIsing (env : MathEnv) (prev : List ℚ) (st : String) (r : ℕ → ℚ)
    (c : ℕ) : (evolveIsing env prev st r c).1.length = prev.length := by
  simp [evolveIsing]

theorem evolveIsing_noiseless (env : MathEnv) (prev : List ℚ) (st : String)
    (hst : st ≠ "open") (r1 r2 : ℕ → ℚ) (c : ℕ) :
    evolveIsing env prev st r1 c = evolveIsing env prev st r2 c := by
  unfold evolveIsing
  rw [if_neg hst]
  simp only [if_neg (lt_irrefl (0 : ℚ))]

theorem length_evolve (env : MathEnv) (mt st : String) (r : ℕ → ℚ) (c : ℕ)
    (prev mem : List ℚ) (lvl : ℕ) :
    (evolve env mt st r c prev mem lvl).1.length = prev.length := by
  unfold evolve
  split
  · exact length_evolveOscillators prev st r c
  · split
    · exact length_evolveIsing env prev st r c
    · simp [length_blendVec, sinVec]

theorem evolve_det (env : MathEnv) (mt st : String) (h : mt = "nonlinear" ∨ st ≠ "open")
    (r1 r2 : ℕ → ℚ) (c : ℕ) (prev mem : List ℚ) (lvl : ℕ) :
    evolve env mt st r1 c prev mem lvl = evolve env mt st r2 c prev mem lvl := by
  have hst : mt = "oscillators" ∨ mt = "ising" → st ≠ "open" := by
    intro hmt
    rcases h with h | h
    · rcases hmt with hmt | hmt <;> rw [hmt] at h <;> exact absurd h (by decide)
    · exact h
  unfold evolve
  by_cases h1 : mt = "oscillators"
  · rw [if_pos h1, if_pos h1]
    exact evolveOscillators_noiseless prev st (hst (Or.inl h1)) r1 r2 c
  · rw [if_neg h1, if_neg h1]
    by_cases h2 : mt = "ising"
    · rw [if_pos h2, if_pos h2]
      exact evolveIsing_noiseless env prev st (hst (Or.inr h2)) r1 r2 c
    · rw [if_neg h2, if_neg h2]

theorem lookup_mem {α : Type} : ∀ (l : List (ℕ × α)) (k : ℕ) (v : α),
    l.lookup k = some v → (k, v) ∈ l := by
  intro l
  induction l with
  | nil => intro k v h; simp [List.lookup] at h
  | cons p rest ih =>
    intro k v h
    obtain ⟨k0, v0⟩ := p
    by_cases hk : k = k0
    · subst hk
      simp [List.lookup] at h
      simp [h]
    · have hbeq : (k == k0) = false := by simpa using hk
      rw [List.lookup] at h
      simp only [hbeq] at h
      exact List.mem_cons_of_mem _ (ih k v h)

theorem lookup_of_mem_keys {α : Type} : ∀ (l : List (ℕ × α)) (k : ℕ),
    k ∈ l.map Prod.fst → ∃ v, l.lookup k = some v := by
  intro l
  induction l with
  | nil => intro k h; simp at h
  | cons p rest ih =>
    intro k h
    obtain ⟨k0, v0⟩ := p
    by_cases hk : k = k0
    · subst hk
      exact ⟨v0, by simp [List.lookup]⟩
    · simp only [List.map_cons, List.mem_cons] at h
      rcases h with h | h
      · exact absurd h hk
      · obtain ⟨v, hv⟩ := ih k h
        refine ⟨v, ?_⟩
        have hbeq : (k == k0) = false := by simpa using hk
        rw [List.lookup]
        simp only [hbeq]
        exact hv

theorem lookup_append_some {α : Type} : ∀ (l1 l2 : List (ℕ × α)) (k : ℕ) (v : α),
    l1.lookup k = some v → (l1 ++ l2).lookup k = some v := by
  intro l1
  induction l1 with
  | nil => intro l2 k v h; simp [List.lookup] at h
  | cons p rest ih =>
    intro l2 k v h
    obtain ⟨k0, v0⟩ := p
    by_cases hk : k = k0
    · subst hk
      simp [List.lookup] at h
      simp [List.lookup, h]
    · have hbeq : (k == k0) = false := by simpa using hk
      rw [List.lookup] at h
      simp only [hbeq] at h
      rw [List.cons_append, List.lookup]
      simp only [hbeq]
      exact ih l2 k v h

theorem lookup_upsert_self {α : Type} : ∀ (l : List (ℕ × α)) (k : ℕ) (v : α),
    (upsert l k v).lookup k = some v := by
  intro l
  induction l with
  | nil => intro k v; simp [upsert, List.lookup]
  | cons p rest ih =>
    intro k v
    obtain ⟨k0, v0⟩ := p
    unfold upsert
    by_cases hk : k0 = k
    · rw [if_pos hk]
      simp [List.lookup]
    · rw [if_neg hk]
      have hbeq : (k == k0) = false := by simpa using fun h : k = k0 => hk h.symm
      rw [List.lookup]
      simp only [hbeq]
      exact ih k v

theorem mem_upsert {α : Type} : ∀ (l : List (ℕ × α)) (k : ℕ) (v : α) (q : ℕ × α),
    q ∈ upsert l k v → q = (k, v) ∨ q ∈ l := by
  intro l
  induction l with
  | nil => intro k v q h; simpa [upsert] using h
  | cons p rest ih =>
    intro k v q h
    obtain ⟨k0, v0⟩ := p
    unfold upsert at h
    by_cases hk : k0 = k
    · rw [if_pos hk] at h
      rcases List.mem_cons.1 h with h | h
      · exact Or.inl h
      · exact Or.inr (List.mem_cons_of_mem _ h)
    · rw [if_neg hk] at h
      rcases List.mem_cons.1 h with h | h
      · exact Or.inr (by simp [h])
      · rcases ih k v q h with h | h
        · exact Or.inl h
        · exact Or.inr (List.mem_cons_of_mem _ h)

theorem levelsGo_spec (env : MathEnv) (mt st : String) (r : ℕ → ℚ)
    (lprev : List (ℕ × List ℚ)) (t : ℕ) (b : List ℚ) (c0 : ℕ) : ∀ (k : ℕ),
    ((levelsGo env mt st r lprev t k ([(0, b)], c0)).1.map Prod.fst = List.range (k + 1)) ∧
    ((levelsGo env mt st r lprev t k ([(0, b)], c0)).1.lookup 0 = some b) ∧
    (∀ q ∈ (levelsGo env mt st r lprev t k ([(0, b)], c0)).1, q.2.length = b.length) := by
  intro k
  induction k with
  | zero =>
    refine ⟨by simp [levelsGo, List.range_succ], by simp [levelsGo, List.lookup], ?_⟩
    intro q hq
    simp only [levelsGo, List.mem_singleton] at hq
    simp [hq]
  | succ k ih =>
    obtain ⟨ihk, ih0, ihlen⟩ := ih
    have hkmem : k ∈ (levelsGo env mt st r lprev t k ([(0, b)], c0)).1.map Prod.fst := by
      rw [ihk]
      simp [List.mem_range]
    obtain ⟨pv, hpv⟩ := lookup_of_mem_keys _ k hkmem
    have hpvlen : pv.length = b.length := ihlen (k, pv) (lookup_mem _ k pv hpv)
    constructor
    · simp only [levelsGo, List.map_append, ihk]
      rw [List.range_succ (n := k + 1)]
      simp
    constructor
    · simp only [levelsGo]
      exact lookup_append_some _ _ 0 b ih0
    · intro q hq
      simp only [levelsGo, List.mem_append, List.mem_singleton] at hq
      rcases hq with hq | hq
      · exact ihlen q hq
      · rw [hq]
        simp only []
        rw [length_evolve]
        simp only [Nat.add_sub_cancel, hpv]
        simpa using hpvlen

theorem levelsGo_det (env : MathEnv) (mt st : String) (h : mt = "nonlinear" ∨ st ≠ "open")
    (r1 r2 : ℕ → ℚ) (lprev : List (ℕ × List ℚ)) (t : ℕ) : ∀ (k : ℕ) (acc : List (ℕ × List ℚ) × ℕ),
    levelsGo env mt st r1 lprev t k acc = levelsGo env mt st r2 lprev t k acc := by
  intro k
  induction k with
  | zero => intro acc; rfl
  | succ k ih =>
    intro acc
    simp only [levelsGo, ih acc]
    rw [evolve_det env mt st h r1 r2]

theorem step_fields (env : MathEnv) (r : ℕ → ℚ) (t m : ℕ) (u : LivingUniverse) (c : ℕ) :
    (step env r t m u c).1.dim = u.dim ∧
    (step env r t m u c).1.modelType = u.modelType ∧
    (step env r t m u c).1.systemType = u.systemType := by
  unfold step
  split
  · exact ⟨rfl, rfl, rfl⟩
  · exact ⟨rfl, rfl, rfl⟩

theorem step_history (env : MathEnv) (r : ℕ → ℚ) (t m : ℕ) (u : LivingUniverse) (c : ℕ)
    (ht : ¬ t = 0) :
    (step env r t m u c).1.history = u.history ++
      [(evolve env u.modelType u.systemType r c (u.history.getD (t - 1) [])
        (if 1 < t then u.history.getD (t - 2) [] else u.history.getD (t - 1) []) 0).1] := by
  unfold step
  rw [if_neg ht]

theorem step_levels (env : MathEnv) (r : ℕ → ℚ) (t m : ℕ) (u : LivingUniverse) (c : ℕ)
    (ht : ¬ t = 0) :
    (step env r t m u c).1.levels = upsert u.levels t
      (levelsGo env u.modelType u.systemType r ((u.levels.lookup (t - 1)).getD []) t (m - 1)
        ([(0, (evolve env u.modelType u.systemType r c (u.history.getD (t - 1) [])
          (if 1 < t then u.history.getD (t - 2) [] else u.history.getD (t - 1) []) 0).1)],
         (evolve env u.modelType u.systemType r c (u.history.getD (t - 1) [])
          (if 1 < t then u.history.getD (t - 2) [] else u.history.getD (t - 1) []) 0).2)).1 := by
  unfold step
  rw [if_neg ht]

theorem step_det (env : MathEnv) (r1 r2 : ℕ → ℚ) (t m : ℕ) (u : LivingUniverse) (c : ℕ)
    (h : u.modelType = "nonlinear" ∨ u.systemType ≠ "open") :
    step env r1 t m u c = step env r2 t m u c := by
  unfold step
  split
  · rfl
  · simp only []
    rw [evolve_det env u.modelType u.systemType h r1 r2,
      levelsGo_det env u.modelType u.systemType h r1 r2]

theorem runGo_fields (env : MathEnv) (r : ℕ → ℚ) (m : ℕ) : ∀ (k : ℕ) (s : LivingUniverse × ℕ),
    (runGo env r m k s).1.dim = s.1.dim ∧
    (runGo env r m k s).1.modelType = s.1.modelType ∧
    (runGo env r m k s).1.systemType = s.1.systemType := by
  intro k
  induction k with
  | zero => intro s; exact ⟨rfl, rfl, rfl⟩
  | succ k ih =>
    intro s
    obtain ⟨ih1, ih2, ih3⟩ := ih s
    obtain ⟨h1, h2, h3⟩ := step_fields env r (k + 1) m (runGo env r m k s).1 (runGo env r m k s).2
    exact ⟨h1.trans ih1, h2.trans ih2, h3.trans ih3⟩

theorem runGo_det (env : MathEnv) (r1 r2 : ℕ → ℚ) (m : ℕ) : ∀ (k : ℕ) (s : LivingUniverse × ℕ),
    (s.1.modelType = "nonlinear" ∨ s.1.systemType ≠ "open") →
    runGo env r1 m k s = runGo env r2 m k s := by
  intro k
  induction k with
  | zero => intro s _; rfl
  | succ k ih =>
    intro s hs
    simp only [runGo, ih s hs]
    apply step_det
    obtain ⟨-, h2, h3⟩ := runGo_fields env r2 m k s
    rw [h2, h3]
    exact hs

theorem step_history_length (env : MathEnv) (r : ℕ → ℚ) (t m : ℕ) (u : LivingUniverse)
    (c : ℕ) (ht : ¬ t = 0) :
    (step env r t m u c).1.history.length = u.history.length + 1 := by
  rw [step_history env r t m u c ht]
  simp

theorem step_dimOK (env : MathEnv) (r : ℕ → ℚ) (t m : ℕ) (u : LivingUniverse) (c : ℕ)
    (hdim : dimOK u) (ht : t ≤ u.history.length) : dimOK (step env r t m u c).1 := by
  by_cases ht0 : t = 0
  · unfold step
    rw [if_pos ht0]
    exact hdim
  · obtain ⟨hd, -, -⟩ := step_fields env r t m u c
    have htlen : t - 1 < u.history.length := by omega
    unfold dimOK
    rw [hd, step_history env r t m u c ht0, step_levels env r t m u c ht0]
    constructor
    · intro v hv
      rcases List.mem_append.1 hv with hv | hv
      · exact hdim.1 v hv
      · rw [List.mem_singleton] at hv
        rw [hv, length_evolve]
        exact hdim.1 _ (getD_mem _ u.history (t - 1) htlen)
    · intro p hp q hq
      rcases mem_upsert _ _ _ _ hp with hp | hp
      · rw [hp] at hq
        obtain ⟨-, -, hlen3⟩ := levelsGo_spec env u.modelType u.systemType r
          ((u.levels.lookup (t - 1)).getD []) t
          ((evolve env u.modelType u.systemType r c (u.history.getD (t - 1) [])
            (if 1 < t then u.history.getD (t - 2) [] else u.history.getD (t - 1) []) 0).1)
          ((evolve env u.modelType u.systemType r c (u.history.getD (t - 1) [])
            (if 1 < t then u.history.getD (t - 2) [] else u.history.getD (t - 1) []) 0).2)
          (m - 1)
        rw [hlen3 q hq, length_evolve]
        exact hdim.1 _ (getD_mem _ u.history (t - 1) htlen)
      · exact hdim.2 p hp q hq

theorem runGo_dimOK (env : MathEnv) (r : ℕ → ℚ) (m : ℕ) : ∀ (k : ℕ) (s : LivingUniverse × ℕ),
    dimOK s.1 → s.1.history.length = 1 →
    dimOK (runGo env r m k s).1 ∧ (runGo env r m k s).1.history.length = 1 + k := by
  intro k
  induction k with
  | zero => exact fun s h h1 => ⟨h, h1⟩
  | succ k ih =>
    intro s h h1
    obtain ⟨ihd, ihl⟩ := ih s h h1
    simp only [runGo]
    refine ⟨step_dimOK env r (k + 1) m _ _ ihd (by omega), ?_⟩
    rw [step_history_length env r (k + 1) m _ _ (by omega), ihl]
    omega

theorem retro_spec (u : LivingUniverse) (tf tp : ℕ) (s : ℚ) (hf : tf < u.history.length)
    (hp : tp < u.history.length) :
    (retro_influence u tf tp s).history.getD tp [] =
      addVec (u.history.getD tp [])
        (scaleVec (subVec (get_state u tf 0) (u.history.getD tp [])) s) ∧
    (∀ i, ¬ i = tp → (retro_influence u tf tp s).history.getD i [] = u.history.getD i []) ∧
    (retro_influence u tf tp s).levels = u.levels ∧
    (retro_influence u tf tp s).history.length = u.history.length ∧
    (retro_influence u tf tp s).dim = u.dim ∧
    (retro_influence u tf tp s).modelType = u.modelType ∧
    (retro_influence u tf tp s).systemType = u.systemType := by
  have hguard : ¬ (u.history.length ≤ tf ∨ u.history.length ≤ tp) := by omega
  have he : retro_influence u tf tp s =
      { u with history := u.history.set tp (addVec (u.history.getD tp []) (scaleVec (subVec (get_state u tf 0) (u.history.getD tp [])) s)) } := by
    unfold retro_influence
    rw [if_neg hguard]
  rw [he]
  refine ⟨?_, ?_, rfl, by simp, rfl, rfl, rfl⟩
  · show (u.history.set tp _).getD tp [] = _
    rw [getD_set, if_pos ⟨rfl, hp⟩]
  · intro i hi
    show (u.history.set tp _).getD i [] = _
    rw [getD_set, if_neg (by tauto)]

theorem retro_dimOK (u : LivingUniverse) (tf tp : ℕ) (s : ℚ) (hdim : dimOK u) :
    dimOK (retro_influence u tf tp s) := by
  unfold retro_influence
  split
  · exact hdim
  · rename_i hguard
    constructor
    · intro v hv
      simp only [] at hv
      rcases List.mem_or_eq_of_mem_set hv with hv | hv
      · exact hdim.1 v hv
      · rw [hv, length_addVec]
        exact hdim.1 _ (getD_mem _ u.history tp (by omega))
    · exact hdim.2

theorem construct_spec (dim : ℕ) (mt st : String) (seed : Option (List ℚ)) (r : ℕ → ℚ)
    (c : ℕ) (hdim : 1 ≤ dim)
    (hseed : seed = none ∨ ∃ s0, seed = some s0 ∧ s0.length = dim) :
    dimOK (construct dim mt st seed r c).1 ∧
    (construct dim mt st seed r c).1.history.length = 1 ∧
    (construct dim mt st seed r c).1.dim = dim := by
  unfold construct
  have hd : ¬ dim = 0 := by omega
  rw [if_neg hd]
  rcases hseed with h | ⟨s0, h, hlen⟩ <;> subst h
  · refine ⟨⟨?_, by simp⟩, by simp, rfl⟩
    intro v hv
    simp only [randVec, List.mem_singleton] at hv
    rw [hv]
    simp
  · refine ⟨⟨?_, by simp⟩, by simp, rfl⟩
    intro v hv
    simp only [List.mem_singleton] at hv
    rw [hv]
    exact hlen

theorem step_levels_lookup (env : MathEnv) (r : ℕ → ℚ) (t m : ℕ) (u : LivingUniverse)
    (c : ℕ) (ht : ¬ t = 0) :
    ((step env r t m u c).1.levels).lookup t = some
      (levelsGo env u.modelType u.systemType r ((u.levels.lookup (t - 1)).getD []) t (m - 1)
        ([(0, (evolve env u.modelType u.systemType r c (u.history.getD (t - 1) [])
          (if 1 < t then u.history.getD (t - 2) [] else u.history.getD (t - 1) []) 0).1)],
         (evolve env u.modelType u.systemType r c (u.history.getD (t - 1) [])
          (if 1 < t then u.history.getD (t - 2) [] else u.history.getD (t - 1) []) 0).2)).1 := by
  rw [step_levels env r t m u c ht]
  exact lookup_upsert_self _ _ _

theorem retro_twice_delta (u : LivingUniverse) (tf tp : ℕ) (s : ℚ)
    (hf : tf < u.history.length) (hp : tp < u.history.length) (hne : ¬ tf = tp)
    (hlen : (u.history.getD tf []).length = (u.history.getD tp []).length) :
    subVec ((retro_influence (retro_influence u tf tp s) tf tp s).history.getD tp [])
        ((retro_influence u tf tp s).history.getD tp []) =
      scaleVec
        (subVec ((retro_influence u tf tp s).history.getD tp []) (u.history.getD tp []))
        (1 - s) := by
  obtain ⟨h1def, h1other, -, h1len, -, -, -⟩ := retro_spec u tf tp s hf hp
  have hgs : get_state u tf 0 = u.history.getD tf [] := by
    unfold get_state
    rw [if_pos rfl]
  obtain ⟨h2def, -, -, -, -, -, -⟩ :=
    retro_spec (retro_influence u tf tp s) tf tp s (by omega) (by omega)
  have hgs1 : get_state (retro_influence u tf tp s) tf 0 =
      u.history.getD tf [] := by
    unfold get_state
    rw [if_pos rfl]
    exact h1other tf hne
  rw [hgs] at h1def
  rw [hgs1] at h2def
  set f := u.history.getD tf [] with hfdef
  set h := u.history.getD tp [] with hhdef
  set d1 := scaleVec (subVec f h) s with hd1
  set h1 := (retro_influence u tf tp s).history.getD tp [] with hh1
  set h2 := (retro_influence (retro_influence u tf tp s) tf tp s).history.getD tp [] with hh2
  -- h1 = addVec h d1 ; h2 = addVec h1 (scaleVec (subVec f h1) s)
  have hlh1 : h1.length = h.length := by rw [h1def, length_addVec]
  have hlh2 : h2.length = h1.length := by rw [h2def, length_addVec]
  apply ext_getD
  · rw [length_subVec, length_scaleVec, length_subVec, hlh2]
  · intro j
    by_cases hj : j < h.length
    · have hjf : j < f.length := by omega
      have hj1 : j < h1.length := by omega
      have hj2 : j < h2.length := by omega
      rw [getD_subVec _ _ j (by rwa [hlh2]), getD_scaleVec,
        getD_subVec _ _ j (by rwa [hlh1])]
      rw [h2def, getD_addVec _ _ j hj1, getD_scaleVec, getD_subVec _ _ j hjf]
      rw [h1def, getD_addVec _ _ j hj, hd1, getD_scaleVec, getD_subVec _ _ j hjf]
      ring
    · rw [getD_default _ _ j (by rw [length_subVec]; omega),
        getD_scaleVec, getD_default _ _ j (by rw [length_subVec]; omega), zero_mul]

theorem Uosc_eval : Uosc = ⟨2, "oscillators", "isolated", [[1, 0], [399 / 400, -1 / 20]],
    [(1, [(0, [399 / 400, -1 / 20]), (1, [158801 / 160000, -799 / 8000])])]⟩ := by
  norm_num +decide [Uosc, run, runGo, construct, step, evolve, evolveOscillators, oscGo,
    oscBody, oscVNext, oscXNext, levelsGo, upsert, List.lookup, rZero]

theorem U5_eval : U5 = ⟨2, "oscillators", "isolated", [[0, 0], [0, 0]], [(1, [(0, [0, 0])])]⟩ := by
  norm_num +decide [U5, run, runGo, construct, step, evolve, evolveOscillators, oscGo,
    oscBody, oscVNext, oscXNext, levelsGo, upsert, List.lookup, rZero]

/-- C1 counterexample: for the concrete deterministic run `Uosc` the code's
`infinite_state(1)` is NOT the spec's sum over derived levels `ℓ ≥ 1` only;
it equals the sum over all recorded levels `0 ≤ ℓ < 2`, so the level-0
entry of `levels[1]` does contribute. -/
theorem infinite_state_level0_counterexample :
    ¬ infinite_state Uosc 1 = spec_infinite_state_ge1 Uosc 1 ∧
    infinite_state Uosc 1 = sumLevelsRange Uosc 1 2 := by
  rw [Uosc_eval]
  norm_num +decide [infinite_state, spec_infinite_state_ge1, sumLevelsRange, addScaled,
    vecIdxMap, zeros, List.insertionSort, List.orderedInsert, List.lookup, List.foldl,
    List.filter]

/-- C1 (amended): for every universe, after `step(t, maxLevel)` with
`t ≥ 1` and `maxLevel ≥ 1`, `infinite_state(t)` equals the component-wise
sum over ALL recorded levels `ℓ = 0 … maxLevel-1` of `levels[t][ℓ]` scaled
by `1/(ℓ+1)` — including the level-0 term `levels[t][0]·1/(0+1)`, which the
code stores in the levels table as well as in `history`. -/
theorem infinite_state_after_step (env : MathEnv) (r : ℕ → ℚ) (u : LivingUniverse)
    (c t m : ℕ) (ht : ¬ t = 0) (hm : 1 ≤ m) :
    infinite_state (step env r t m u c).1 t = sumLevelsRange (step env r t m u c).1 t m := by
  have hlk := step_levels_lookup env r t m u c ht
  obtain ⟨hkeys, -, -⟩ := levelsGo_spec env u.modelType u.systemType r
    ((u.levels.lookup (t - 1)).getD []) t
    ((evolve env u.modelType u.systemType r c (u.history.getD (t - 1) [])
      (if 1 < t then u.history.getD (t - 2) [] else u.history.getD (t - 1) []) 0).1)
    ((evolve env u.modelType u.systemType r c (u.history.getD (t - 1) [])
      (if 1 < t then u.history.getD (t - 2) [] else u.history.getD (t - 1) []) 0).2)
    (m - 1)
  have hm1 : m - 1 + 1 = m := by omega
  rw [hm1] at hkeys
  unfold infinite_state sumLevelsRange
  simp only [hlk, Option.getD_some]
  rw [hkeys, List.Sorted.insertionSort_eq (List.sorted_le_range m)]

/-- C1 witness: the amended statement instantiated on a concrete step. -/
theorem infinite_state_after_step_witness :
    ¬ (1 : ℕ) = 0 ∧ (1 : ℕ) ≤ 2 ∧
    infinite_state
        (step trivEnv rZero 1 2
          (construct 2 "oscillators" "isolated" (some [1, 0]) rZero 0).1 0).1 1 =
      sumLevelsRange
        (step trivEnv rZero 1 2
          (construct 2 "oscillators" "isolated" (some [1, 0]) rZero 0).1 0).1 1 2 :=
  ⟨by decide, by decide,
    infinite_state_after_step trivEnv rZero
      (construct 2 "oscillators" "isolated" (some [1, 0]) rZero 0).1 0 1 2
      (by decide) (by decide)⟩

/-- C2 counterexample: after the concrete run `Uosc`, the levels table at
time 1 DOES hold an entry at level index 0. -/
theorem levels_zero_entry_counterexample :
    ¬ (((Uosc.levels.lookup 1).getD []).lookup 0 = none) := by decide

/-- C2 (amended): for every universe and every executed `step(t, maxLevel)`
with `t ≥ 1`, the levels table at time `t` holds an entry at level index 0,
and that entry equals the vector appended to `history` by that step (so
level 0 at time `t` is stored redundantly in `levels` at step time). -/
theorem step_stores_level0 (env : MathEnv) (r : ℕ → ℚ) (u : LivingUniverse)
    (c t m : ℕ) (ht : ¬ t = 0) :
    (((step env r t m u c).1.levels.lookup t).getD []).lookup 0 =
      some ((step env r t m u c).1.history.getD
        ((step env r t m u c).1.history.length - 1) []) := by
  have hlk := step_levels_lookup env r t m u c ht
  obtain ⟨-, h0, -⟩ := levelsGo_spec env u.modelType u.systemType r
    ((u.levels.lookup (t - 1)).getD []) t
    ((evolve env u.modelType u.systemType r c (u.history.getD (t - 1) [])
      (if 1 < t then u.history.getD (t - 2) [] else u.history.getD (t - 1) []) 0).1)
    ((evolve env u.modelType u.systemType r c (u.history.getD (t - 1) [])
      (if 1 < t then u.history.getD (t - 2) [] else u.history.getD (t - 1) []) 0).2)
    (m - 1)
  rw [hlk, Option.getD_some, h0]
  rw [step_history env r t m u c ht]
  simp only [List.length_append, List.length_singleton, Nat.add_sub_cancel]
  rw [getD_append_last]

/-- C2 witness: the amended statement instantiated on a concrete step. -/
theorem step_stores_level0_witness :
    ¬ (1 : ℕ) = 0 ∧
    (((step trivEnv rZero 1 2
        (construct 2 "oscillators" "isolated" (some [1, 0]) rZero 0).1 0).1.levels.lookup
          1).getD []).lookup 0 =
      some ((step trivEnv rZero 1 2
        (construct 2 "oscillators" "isolated" (some [1, 0]) rZero 0).1 0).1.history.getD
        ((step trivEnv rZero 1 2
          (construct 2 "oscillators" "isolated" (some [1, 0]) rZero 0).1 0).1.history.length
          - 1) []) :=
  ⟨by decide,
    step_stores_level0 trivEnv rZero
      (construct 2 "oscillators" "isolated" (some [1, 0]) rZero 0).1 0 1 2 (by decide)⟩

/-- C3: for in-range indices, `retro_influence` rewrites `history[t_past]`
to `history[t_past] + (get_state(t_future) - history[t_past])·strength` and
changes nothing else: all other history entries, the history length, and
the entire levels table are left unchanged (levels are not recomputed). -/
theorem retro_influence_in_range (u : LivingUniverse) (tf tp : ℕ) (s : ℚ)
    (hf : tf < u.history.length) (hp : tp < u.history.length) :
    (retro_influence u tf tp s).history.getD tp [] =
      addVec (u.history.getD tp [])
        (scaleVec (subVec (get_state u tf 0) (u.history.getD tp [])) s) ∧
    (∀ i, ¬ i = tp → (retro_influence u tf tp s).history.getD i [] = u.history.getD i []) ∧
    (retro_influence u tf tp s).history.length = u.history.length ∧
    (retro_influence u tf tp s).levels = u.levels := by
  obtain ⟨h1, h2, h3, h4, -, -, -⟩ := retro_spec u tf tp s hf hp
  exact ⟨h1, h2, h4, h3⟩

/-- C3 witness: the in-range update instantiated on a concrete universe. -/
theorem retro_influence_in_range_witness :
    (1 < Upair.history.length ∧ 0 < Upair.history.length) ∧
    ((retro_influence Upair 1 0 (1 / 2)).history.getD 0 [] =
      addVec (Upair.history.getD 0 [])
        (scaleVec (subVec (get_state Upair 1 0) (Upair.history.getD 0 [])) (1 / 2)) ∧
     (∀ i, ¬ i = 0 →
       (retro_influence Upair 1 0 (1 / 2)).history.getD i [] = Upair.history.getD i []) ∧
     (retro_influence Upair 1 0 (1 / 2)).history.length = Upair.history.length ∧
     (retro_influence Upair 1 0 (1 / 2)).levels = Upair.levels) :=
  ⟨⟨by decide, by decide⟩, retro_influence_in_range Upair 1 0 (1 / 2) (by decide) (by decide)⟩

/-- C4: `retro_influence` with `t_future` or `t_past` at or beyond the
history length is a safe no-op: the universe — history and levels — is
returned value-for-value unchanged. -/
theorem retro_influence_out_of_range (u : LivingUniverse) (tf tp : ℕ) (s : ℚ)
    (h : u.history.length ≤ tf ∨ u.history.length ≤ tp) :
    retro_influence u tf tp s = u := by
  unfold retro_influence
  rw [if_pos h]

/-- C4 witness: the no-op boundary instantiated on a concrete universe. -/
theorem retro_influence_out_of_range_witness :
    (Upair.history.length ≤ 5 ∨ Upair.history.length ≤ 0) ∧
    retro_influence Upair 5 0 (1 / 100) = Upair :=
  ⟨Or.inl (by decide), retro_influence_out_of_range Upair 5 0 (1 / 100) (Or.inl (by decide))⟩

/-- C5 counterexample: on the concrete universe `U5` (whose future and past
states coincide), two successive in-range `retro_influence` calls with
strength `1/2 ≠ 0` change `history[t_past]` by the SAME delta (both zero),
refuting "the second call's effect differs from the first unless
strength == 0". -/
theorem retro_non_idempotence_counterexample :
    1 < U5.history.length ∧ 0 < U5.history.length ∧ ¬ (1 / 2 : ℚ) = 0 ∧
    subVec ((retro_influence U5 1 0 (1 / 2)).history.getD 0 []) (U5.history.getD 0 []) =
      subVec ((retro_influence (retro_influence U5 1 0 (1 / 2)) 1 0 (1 / 2)).history.getD 0 [])
        ((retro_influence U5 1 0 (1 / 2)).history.getD 0 []) := by
  rw [U5_eval]
  norm_num +decide [retro_influence, get_state, addVec, subVec, scaleVec, vecIdxMap]

/-- C5 (amended): for in-range distinct indices (with matching vector
lengths), the second call's effect on `history[t_past]` equals `(1 -
strength)` times the first call's effect; hence the two effects differ
whenever `strength ≠ 0` AND the first delta is nonzero (i.e.
`get_state(t_future)` differs from `history[t_past]`), but coincide when
the first delta is zero. -/
theorem retro_influence_second_delta (u : LivingUniverse) (tf tp : ℕ) (s : ℚ)
    (hf : tf < u.history.length) (hp : tp < u.history.length) (hne : ¬ tf = tp)
    (hlen : (u.history.getD tf []).length = (u.history.getD tp []).length) :
    subVec ((retro_influence (retro_influence u tf tp s) tf tp s).history.getD tp [])
        ((retro_influence u tf tp s).history.getD tp []) =
      scaleVec
        (subVec ((retro_influence u tf tp s).history.getD tp []) (u.history.getD tp []))
        (1 - s) ∧
    (¬ s = 0 →
      (∃ j, ¬ (subVec ((retro_influence u tf tp s).history.getD tp [])
        (u.history.getD tp [])).getD j 0 = 0) →
      ¬ subVec ((retro_influence u tf tp s).history.getD tp []) (u.history.getD tp []) =
        subVec ((retro_influence (retro_influence u tf tp s) tf tp s).history.getD tp [])
          ((retro_influence u tf tp s).history.getD tp [])) := by
  have hmain := retro_twice_delta u tf tp s hf hp hne hlen
  refine ⟨hmain, ?_⟩
  intro hs ⟨j, hj⟩ heq
  have := congrArg (fun l => l.getD j 0) heq
  simp only [] at this
  rw [hmain, getD_scaleVec] at this
  have hz : (subVec ((retro_influence u tf tp s).history.getD tp [])
      (u.history.getD tp [])).getD j 0 * s = 0 := by linarith [this]
  rcases mul_eq_zero.1 hz with hz | hz
  · exact hj hz
  · exact hs hz

/-- C5 witness: the amended second-delta law instantiated on a concrete
universe with a nonzero first delta. -/
theorem retro_influence_second_delta_witness :
    (1 < Upair.history.length ∧ 0 < Upair.history.length ∧ ¬ (1 : ℕ) = 0 ∧
      (Upair.history.getD 1 []).length = (Upair.history.getD 0 []).length) ∧
    (subVec ((retro_influence (retro_influence Upair 1 0 (1 / 2)) 1 0 (1 / 2)).history.getD 0 [])
        ((retro_influence Upair 1 0 (1 / 2)).history.getD 0 []) =
      scaleVec
        (subVec ((retro_influence Upair 1 0 (1 / 2)).history.getD 0 [])
          (Upair.history.getD 0 []))
        (1 - 1 / 2) ∧
    (¬ (1 / 2 : ℚ) = 0 →
      (∃ j, ¬ (subVec ((retro_influence Upair 1 0 (1 / 2)).history.getD 0 [])
        (Upair.history.getD 0 [])).getD j 0 = 0) →
      ¬ subVec ((retro_influence Upair 1 0 (1 / 2)).history.getD 0 [])
          (Upair.history.getD 0 []) =
        subVec ((retro_influence (retro_influence Upair 1 0 (1 / 2)) 1 0 (1 / 2)).history.getD 0 [])
          ((retro_influence Upair 1 0 (1 / 2)).history.getD 0 []))) :=
  ⟨⟨by decide, by decide, by decide, by decide⟩,
    retro_influence_second_delta Upair 1 0 (1 / 2) (by decide) (by decide) (by decide)
      (by decide)⟩

/-- C6 counterexample: in the open oscillator model with a nonzero noise
draw, the stored output position does NOT equal `prev[2i] + 0.05·next[2i+1]`
with the stored (post-noise) output velocity. -/
theorem oscillators_open_position_counterexample :
    ¬ ((evolveOscillators [0, 0] "open" (fun _ => 1) 0).1.getD 0 0 =
      ([0, 0] : List ℚ).getD 0 0 +
        (1 / 20) * (evolveOscillators [0, 0] "open" (fun _ => 1) 0).1.getD 1 0) := by
  norm_num +decide [evolveOscillators, oscGo, oscBody, oscVNext, oscXNext]

/-- C6 (amended): in the open oscillator model, for every oscillator pair
`i`, the output position integrates the PRE-noise damped velocity:
`next[2i] = prev[2i] + 0.05·v_damped(i)`, while the stored output velocity
is `next[2i+1] = v_damped(i) + noise_i` with `noise_i = (r(c+i)·2 - 1)·0.02`
the pair's noise term (draws are consumed in pair order). -/
theorem evolveOscillators_open_position (prev : List ℚ) (r : ℕ → ℚ) (c i : ℕ)
    (hi : i < prev.length / 2) :
    (evolveOscillators prev "open" r c).1.getD (2 * i) 0 =
      prev.getD (2 * i) 0 + (1 / 20) * oscVNext prev (1 / 20) (prev.length / 2) i ∧
    (evolveOscillators prev "open" r c).1.getD (2 * i + 1) 0 =
      oscVNext prev (1 / 20) (prev.length / 2) i + (r (c + i) * 2 - 1) * (1 / 50) := by
  obtain ⟨hx, hv⟩ := evolveOscillators_open_getD prev r c i hi
  exact ⟨hx, hv⟩

/-- C6 witness: the amended position/velocity law at a concrete state and
noise draw. -/
theorem evolveOscillators_open_position_witness :
    0 < ([0, 0] : List ℚ).length / 2 ∧
    ((evolveOscillators [0, 0] "open" (fun _ => 1) 0).1.getD 0 0 =
      ([0, 0] : List ℚ).getD 0 0 +
        (1 / 20) * oscVNext [0, 0] (1 / 20) (([0, 0] : List ℚ).length / 2) 0 ∧
    (evolveOscillators [0, 0] "open" (fun _ => 1) 0).1.getD 1 0 =
      oscVNext [0, 0] (1 / 20) (([0, 0] : List ℚ).length / 2) 0 +
        ((fun _ : ℕ => (1 : ℚ)) (0 + 0) * 2 - 1) * (1 / 50)) :=
  ⟨by decide, evolveOscillators_open_position [0, 0] (fun _ => 1) 0 0 (by decide)⟩

/-- C7: two universes built with identical `dim`, model type, system type
and the same explicit seed, run with identical `steps`/`maxLevel`, produce
identical `history` and `levels` tables whenever the chosen path injects no
per-step randomness (`nonlinear` with any system type; any model with
system type other than `"open"`), for ANY two random streams. -/
theorem run_deterministic_given_seed (env : MathEnv) (dim : ℕ) (mt st : String)
    (seed : List ℚ) (steps maxLevel : ℕ) (r1 r2 : ℕ → ℚ) (c : ℕ)
    (h : mt = "nonlinear" ∨ ¬ st = "open") :
    (run env r1 steps maxLevel (construct dim mt st (some seed) r1 c)).1.history =
      (run env r2 steps maxLevel (construct dim mt st (some seed) r2 c)).1.history ∧
    (run env r1 steps maxLevel (construct dim mt st (some seed) r1 c)).1.levels =
      (run env r2 steps maxLevel (construct dim mt st (some seed) r2 c)).1.levels := by
  have hcon : construct dim mt st (some seed) r2 c = construct dim mt st (some seed) r1 c := rfl
  have hmt : (construct dim mt st (some seed) r1 c).1.modelType =
      (if mt = "" then "nonlinear" else mt) := rfl
  have hst : (construct dim mt st (some seed) r1 c).1.systemType =
      (if st = "" then "isolated" else st) := rfl
  have hcond : (construct dim mt st (some seed) r1 c).1.modelType = "nonlinear" ∨
      (construct dim mt st (some seed) r1 c).1.systemType ≠ "open" := by
    rw [hmt, hst]
    rcases h with h | h
    · subst h
      exact Or.inl (by rw [if_neg (by decide)])
    · right
      by_cases he : st = ""
      · rw [if_pos he]
        decide
      · rw [if_neg he]
        exact h
  have hdet : run env r1 steps maxLevel (construct dim mt st (some seed) r1 c) =
      run env r2 steps maxLevel (construct dim mt st (some seed) r2 c) := by
    rw [hcon]
    unfold run
    exact runGo_det env r1 r2 maxLevel (steps - 1) _ hcond
  exact ⟨by rw [hdet], by rw [hdet]⟩

/-- C7 witness: determinism instantiated with two different random streams
on a closed oscillator universe. -/
theorem run_deterministic_given_seed_witness :
    (("oscillators" : String) = "nonlinear" ∨ ¬ ("closed" : String) = "open") ∧
    ((run trivEnv rZero 2 1 (construct 2 "oscillators" "closed" (some [1, 0]) rZero 0)).1.history =
      (run trivEnv (fun _ => 1) 2 1
        (construct 2 "oscillators" "closed" (some [1, 0]) (fun _ => 1) 0)).1.history ∧
    (run trivEnv rZero 2 1 (construct 2 "oscillators" "closed" (some [1, 0]) rZero 0)).1.levels =
      (run trivEnv (fun _ => 1) 2 1
        (construct 2 "oscillators" "closed" (some [1, 0]) (fun _ => 1) 0)).1.levels) :=
  ⟨Or.inr (by decide),
    run_deterministic_given_seed trivEnv 2 "oscillators" "closed" [1, 0] 2 1 rZero
      (fun _ => 1) 0 (Or.inr (by decide))⟩

/-- C8 (code evaluation): constructing with `dim = 0` (which is `< 1`) does
NOT fail — the `dim || DEFAULT_DIM` fallback silently substitutes the
default dimension 10 and produces a fully usable universe with a length-10
random seed as `history[0]`. -/
theorem construct_dim_zero_defaults :
    (construct 0 "nonlinear" "isolated" none rZero 0).1.dim = DEFAULT_DIM ∧
    (construct 0 "nonlinear" "isolated" none rZero 0).1.history.length = 1 ∧
    ((construct 0 "nonlinear" "isolated" none rZero 0).1.history.getD 0 []).length = 10 := by
  decide

/-- C10: with a seed of length `dim` (or no seed, in which case a length-
`dim` random vector is drawn), every vector stored in `history` and in the
levels tables has length exactly `dim`: construction establishes the
invariant and `run`, `step` and `retro_influence` preserve it. -/
theorem dim_invariant (env : MathEnv) (r : ℕ → ℚ) (c : ℕ) (dim : ℕ) (mt st : String)
    (seed : Option (List ℚ)) (hdim : 1 ≤ dim)
    (hseed : seed = none ∨ ∃ s0, seed = some s0 ∧ s0.length = dim) :
    dimOK (construct dim mt st seed r c).1 ∧
    (∀ steps maxLevel, dimOK (run env r steps maxLevel (construct dim mt st seed r c)).1) ∧
    (∀ (u : LivingUniverse) (c2 t m : ℕ), dimOK u → t ≤ u.history.length →
      dimOK (step env r t m u c2).1) ∧
    (∀ (u : LivingUniverse) (tf tp : ℕ) (s : ℚ), dimOK u →
      dimOK (retro_influence u tf tp s)) := by
  obtain ⟨hc, hl, -⟩ := construct_spec dim mt st seed r c hdim hseed
  refine ⟨hc, ?_, ?_, ?_⟩
  · intro steps maxLevel
    unfold run
    exact (runGo_dimOK env r maxLevel (steps - 1) _ hc hl).1
  · intro u c2 t m hd ht
    exact step_dimOK env r t m u c2 hd ht
  · intro u tf tp s hd
    exact retro_dimOK u tf tp s hd

/-- C10 witness: the invariant instantiated on a concrete seeded universe. -/
theorem dim_invariant_witness :
    ((1 : ℕ) ≤ 2 ∧ (some [1, 0] = (none : Option (List ℚ)) ∨
      ∃ s0, some [1, 0] = some s0 ∧ s0.length = 2)) ∧
    dimOK (construct 2 "oscillators" "isolated" (some [1, 0]) rZero 0).1 :=
  ⟨⟨by decide, Or.inr ⟨[1, 0], rfl, rfl⟩⟩,
    (dim_invariant trivEnv rZero 0 2 "oscillators" "isolated" (some [1, 0]) (by decide)
      (Or.inr ⟨[1, 0], rfl, rfl⟩)).1⟩

/-- C9: with `dim = 4`, model `"nonlinear"`, seed `[0,0,0,0]` and
`run(3, 2)`, `history[0]` is the seed `[0,0,0,0]` and `history[1]` equals
`blend(sin([0,0,0,0]), cos([0,0,0,0]), 1) = [1,1,1,1]` (the memory equals
the previous state at `t = 1`, and level 0 gives blend weight
`α = 1/(1+0) = 1`), for any environment with `sin 0 = 0` and `cos 0 = 1`. -/
theorem nonlinear_concrete_scenario (env : MathEnv) (r : ℕ → ℚ) (c : ℕ)
    (hsin : env.sin 0 = 0) (hcos : env.cos 0 = 1) :
    (run env r 3 2 (construct 4 "nonlinear" "isolated" (some [0, 0, 0, 0]) r c)).1.history.getD 0 []
      = [0, 0, 0, 0] ∧
    (run env r 3 2 (construct 4 "nonlinear" "isolated" (some [0, 0, 0, 0]) r c)).1.history.getD 1 []
      = [1, 1, 1, 1] := by
  have hcon : construct 4 "nonlinear" "isolated" (some [0, 0, 0, 0]) r c =
      ((⟨4, "nonlinear", "isolated", [[0, 0, 0, 0]], []⟩ : LivingUniverse), c) := by
    norm_num +decide [construct]
  have hrun : run env r 3 2 (construct 4 "nonlinear" "isolated" (some [0, 0, 0, 0]) r c) =
      step env r 2 2
        (step env r 1 2 (⟨4, "nonlinear", "isolated", [[0, 0, 0, 0]], []⟩ : LivingUniverse) c).1
        (step env r 1 2 (⟨4, "nonlinear", "isolated", [[0, 0, 0, 0]], []⟩ : LivingUniverse) c).2 := by
    rw [hcon]
    simp [run, runGo]
  rw [hrun, step_history env r 2 2 _ _ (by norm_num),
    step_history env r 1 2 _ _ (by norm_num)]
  simp only [List.cons_append, List.nil_append, List.getD_cons_zero, List.getD_cons_succ]
  constructor
  · trivial
  · norm_num +decide [evolve, blendVec, sinVec, cosVec, vecIdxMap, List.getD, hsin, hcos]

/-- C9 witness: the scenario instantiated at a concrete environment. -/
theorem nonlinear_concrete_scenario_witness :
    (flatEnv.sin 0 = 0 ∧ flatEnv.cos 0 = 1) ∧
    ((run flatEnv rZero 3 2
        (construct 4 "nonlinear" "isolated" (some [0, 0, 0, 0]) rZero 0)).1.history.getD 0 []
      = [0, 0, 0, 0] ∧
    (run flatEnv rZero 3 2
        (construct 4 "nonlinear" "isolated" (some [0, 0, 0, 0]) rZero 0)).1.history.getD 1 []
      = [1, 1, 1, 1]) :=
  ⟨⟨rfl, rfl⟩, nonlinear_concrete_scenario flatEnv rZero 0 rfl rfl⟩

end LUE
